import Mathlib

/-!
Verification of the spraite sprite-pipeline core: atlas packer
(src/packer module), strip slicer (src/processor/slicer.js) and PNG
validator (src/validator/png-validator.js), shallowly embedded in Lean.
Machine integers are modelled as `Nat` (all quantities involved are
non-negative pixel counts); the floating-point transparency percentage is
modelled exactly in `ℚ`; JavaScript objects used as string-keyed maps are
modelled as association lists with insert-or-overwrite assignment; the
stable `Array.prototype.sort` is modelled by `List.insertionSort`, which
is stable.
-/

set_option maxRecDepth 100000

namespace Spraite

/-- Frame metadata handed to the packer (FrameData in the source).
`name`, `animation` and `fps` are `Option`-valued to model possibly
absent JavaScript fields; `buffer` is an opaque identifier standing for
the frame's pixel buffer. -/
structure Frame where
  name : Option String
  animation : Option String
  frameIndex : Nat
  width : Nat
  height : Nat
  fps : Option Nat
  buffer : Nat
deriving Repr, DecidableEq

/-- A position assigned by the layout. -/
structure Pos where
  x : Nat
  y : Nat
deriving Repr, DecidableEq

/-- Result of calculateLayout: positions aligned 1:1 with the input
frames, plus the tracked sheet dimensions. -/
structure LayoutResult where
  positions : List Pos
  width : Nat
  height : Nat
deriving Repr, DecidableEq

/-- Loop body of calculateLayout (part_006 lines 103-137): row-based
packing with state (currentX, currentY, rowHeight, sheetWidth,
sheetHeight).  A frame that would overflow `maxWidth` starts a new row;
the frame is then placed at the current cursor and the running maxima
are updated with the advanced cursor. -/
def calcLayoutAux (padding maxWidth : Nat) :
    List Frame → Nat → Nat → Nat → Nat → Nat → LayoutResult
  | [], _, _, _, sw, sh => ⟨[], sw, sh⟩
  | f :: fs, cx, cy, rh, sw, sh =>
    let cx0 := if cx + f.width + padding > maxWidth then padding else cx
    let cy0 := if cx + f.width + padding > maxWidth then cy + rh + padding else cy
    let rh0 := if cx + f.width + padding > maxWidth then 0 else rh
    let cx1 := cx0 + f.width + padding
    let rh1 := max rh0 f.height
    let rest := calcLayoutAux padding maxWidth fs cx1 cy0 rh1
      (max sw cx1) (max sh (cy0 + rh1 + padding))
    ⟨⟨cx0, cy0⟩ :: rest.positions, rest.width, rest.height⟩

/-- calculateLayout(frames, padding, maxWidth): currentX and currentY
start at `padding`, rowHeight and both sheet maxima at 0. -/
def calculateLayout (frames : List Frame) (padding maxWidth : Nat) : LayoutResult :=
  calcLayoutAux padding maxWidth frames padding padding 0 0 0

/-- The packer's height-descending stable sort
(`[...frames].sort((a, b) => b.height - a.height)`); JavaScript sort is
stable, modelled by the stable insertion sort. -/
def sortFrames (frames : List Frame) : List Frame :=
  List.insertionSort (fun a b => b.height ≤ a.height) frames

/-- A placed rectangle: an assigned position together with the
corresponding frame's width and height. -/
structure PRect where
  x : Nat
  y : Nat
  w : Nat
  h : Nat
deriving Repr, DecidableEq

/-- The rectangles assigned by the layout, aligned with the input frame
order. -/
def layoutRects (frames : List Frame) (padding maxWidth : Nat) : List PRect :=
  List.zipWith (fun p f => PRect.mk p.x p.y f.width f.height)
    (calculateLayout frames padding maxWidth).positions frames

/-- The rectangles the packer assigns: the layout applied to the
height-sorted frames. -/
def packedRects (frames : List Frame) (padding maxWidth : Nat) : List PRect :=
  layoutRects (sortFrames frames) padding maxWidth

/-- Membership of an integer pixel point in a placed rectangle (the
rectangle covers the half-open spans [x, x+w) × [y, y+h)). -/
def inPRect (r : PRect) (px py : Nat) : Prop :=
  r.x ≤ px ∧ px < r.x + r.w ∧ r.y ≤ py ∧ py < r.y + r.h

/-- Two rectangles are separated with gap `p`: on at least one axis the
open space between them is at least `p` pixels. -/
def separated (p : Nat) (r1 r2 : PRect) : Prop :=
  r1.x + r1.w + p ≤ r2.x ∨ r2.x + r2.w + p ≤ r1.x ∨
  r1.y + r1.h + p ≤ r2.y ∨ r2.y + r2.h + p ≤ r1.y

/-- nextPowerOfTwo loop (part_006 lines 231-237): double `power`
starting from 1 until it reaches `n`; the positivity argument only
justifies termination. -/
def npotAux (n power : Nat) (hp : 0 < power) : Nat :=
  if power < n then npotAux n (power * 2) (by omega) else power
termination_by n - power
decreasing_by simp_wf; omega

/-- nextPowerOfTwo(n). -/
def nextPowerOfTwo (n : Nat) : Nat := npotAux n 1 (by omega)

/-! Auxiliary recursion computing the placed rectangles together with
the layout cursor, used to relate the layout to the separation
invariant. -/

/-- The placed rectangles of `calcLayoutAux`, carrying only the cursor
state that determines positions. -/
def rectsAux (padding maxWidth : Nat) : List Frame → Nat → Nat → Nat → List PRect
  | [], _, _, _ => []
  | f :: fs, cx, cy, rh =>
    let cx0 := if cx + f.width + padding > maxWidth then padding else cx
    let cy0 := if cx + f.width + padding > maxWidth then cy + rh + padding else cy
    let rh0 := if cx + f.width + padding > maxWidth then 0 else rh
    PRect.mk cx0 cy0 f.width f.height ::
      rectsAux padding maxWidth fs (cx0 + f.width + padding) cy0 (max rh0 f.height)

/-- Invariant tying an already-placed rectangle to the layout cursor:
the rectangle either lies in the current row (level with `cy`, wholly
left of the cursor with its trailing padding, and no taller than the
current rowHeight) or ended, padding included, above the current row. -/
def InvP (padding cx cy rh : Nat) (r : PRect) : Prop :=
  (r.y = cy ∧ r.x + r.w + padding ≤ cx ∧ r.y + r.h ≤ cy + rh) ∨
  (r.y + r.h + padding ≤ cy)

theorem separated_symm {p : Nat} {r1 r2 : PRect} (h : separated p r1 r2) :
    separated p r2 r1 := by
  unfold separated at h ⊢; omega

theorem separated_disjoint {p : Nat} {r1 r2 : PRect} (h : separated p r1 r2)
    (px py : Nat) : ¬ (inPRect r1 px py ∧ inPRect r2 px py) := by
  unfold separated at h; unfold inPRect; omega

/-- Positions produced by `calcLayoutAux` zipped with the frames they
were computed from are exactly `rectsAux`. -/
theorem zip_positions_eq_rectsAux (padding maxWidth : Nat) :
    ∀ (fs : List Frame) (cx cy rh sw sh : Nat),
      List.zipWith (fun p f => PRect.mk p.x p.y f.width f.height)
        (calcLayoutAux padding maxWidth fs cx cy rh sw sh).positions fs =
      rectsAux padding maxWidth fs cx cy rh := by
  intro fs
  induction fs with
  | nil => intro cx cy rh sw sh; simp [calcLayoutAux, rectsAux]
  | cons f fs ih =>
    intro cx cy rh sw sh
    simp only [calcLayoutAux, rectsAux, List.zipWith]
    exact congrArg _ (ih _ _ _ _ _)

theorem layoutRects_eq_rectsAux (frames : List Frame) (padding maxWidth : Nat) :
    layoutRects frames padding maxWidth =
      rectsAux padding maxWidth frames padding padding 0 := by
  unfold layoutRects calculateLayout
  exact zip_positions_eq_rectsAux padding maxWidth frames padding padding 0 0 0

/-- Main separation invariant: continuing the layout from any cursor
state keeps all rectangles (already placed and newly placed) pairwise
separated by the padding. -/
theorem rectsAux_pairwise (padding maxWidth : Nat) :
    ∀ (fs : List Frame) (cx cy rh : Nat) (placed : List PRect),
      (∀ r ∈ placed, InvP padding cx cy rh r) →
      List.Pairwise (separated padding) placed →
      List.Pairwise (separated padding)
        (placed ++ rectsAux padding maxWidth fs cx cy rh) := by
  intro fs
  induction fs with
  | nil =>
    intro cx cy rh placed _ hpair
    simpa [rectsAux] using hpair
  | cons f fs ih =>
    intro cx cy rh placed hinv hpair
    by_cases hbr : cx + f.width + padding > maxWidth
    · -- row break, then placement at (padding, cy + rh + padding)
      have hrec :
          rectsAux padding maxWidth (f :: fs) cx cy rh =
            PRect.mk padding (cy + rh + padding) f.width f.height ::
              rectsAux padding maxWidth fs (padding + f.width + padding)
                (cy + rh + padding) (max 0 f.height) := by
        simp [rectsAux, hbr]
      rw [hrec, ← List.singleton_append, ← List.append_assoc]
      apply ih
      · intro r hr
        rcases List.mem_append.mp hr with hr | hr
        · have := hinv r hr
          unfold InvP at this ⊢
          omega
        · simp only [List.mem_singleton] at hr
          subst hr
          unfold InvP
          simp only
          left
          refine ⟨trivial, by omega, by omega⟩
      · rw [List.pairwise_append]
        refine ⟨hpair, by simp, ?_⟩
        intro a ha b hb
        simp only [List.mem_singleton] at hb
        subst hb
        have := hinv a ha
        unfold InvP at this
        unfold separated
        simp only
        omega
    · -- frame fits in the current row, placed at (cx, cy)
      have hrec :
          rectsAux padding maxWidth (f :: fs) cx cy rh =
            PRect.mk cx cy f.width f.height ::
              rectsAux padding maxWidth fs (cx + f.width + padding)
                cy (max rh f.height) := by
        simp [rectsAux, hbr]
      rw [hrec, ← List.singleton_append, ← List.append_assoc]
      apply ih
      · intro r hr
        rcases List.mem_append.mp hr with hr | hr
        · have := hinv r hr
          unfold InvP at this ⊢
          omega
        · simp only [List.mem_singleton] at hr
          subst hr
          unfold InvP
          simp only
          left
          refine ⟨trivial, by omega, by omega⟩
      · rw [List.pairwise_append]
        refine ⟨hpair, by simp, ?_⟩
        intro a ha b hb
        simp only [List.mem_singleton] at hb
        subst hb
        have := hinv a ha
        unfold InvP at this
        unfold separated
        simp only
        omega

theorem packedRects_pairwise (frames : List Frame) (padding maxWidth : Nat) :
    List.Pairwise (separated padding) (packedRects frames padding maxWidth) := by
  have h := rectsAux_pairwise padding maxWidth (sortFrames frames) padding padding 0 []
    (by intro r hr; cases hr) List.Pairwise.nil
  simpa [packedRects, layoutRects_eq_rectsAux] using h

/-- The all-zero rectangle, used as the default for indexed access. -/
def emptyRect : PRect := PRect.mk 0 0 0 0

/-- C1: for every non-empty frame list and all padding/maxWidth options,
any two distinct rectangles assigned by the packer's row layout
(calculateLayout on the height-sorted frames) are separated by at least
`padding` pixels on some axis — horizontally within a row, vertically
across rows — and in particular no two assigned rectangles intersect in
any pixel. -/
theorem packer_rects_separated (frames : List Frame) (padding maxWidth : Nat)
    (hne : frames ≠ []) (i j : Nat)
    (hi : i < (packedRects frames padding maxWidth).length)
    (hj : j < (packedRects frames padding maxWidth).length)
    (hij : i ≠ j) :
    separated padding ((packedRects frames padding maxWidth).getD i emptyRect)
      ((packedRects frames padding maxWidth).getD j emptyRect) ∧
    ∀ px py,
      ¬ (inPRect ((packedRects frames padding maxWidth).getD i emptyRect) px py ∧
         inPRect ((packedRects frames padding maxWidth).getD j emptyRect) px py) := by
  have hpair := packedRects_pairwise frames padding maxWidth
  rw [List.pairwise_iff_get] at hpair
  have hsep : separated padding
      ((packedRects frames padding maxWidth).getD i emptyRect)
      ((packedRects frames padding maxWidth).getD j emptyRect) := by
    rw [List.getD_eq_getElem _ _ hi, List.getD_eq_getElem _ _ hj]
    rcases Nat.lt_or_ge i j with hlt | hge
    · exact hpair ⟨i, hi⟩ ⟨j, hj⟩ hlt
    · have hlt : j < i := by omega
      exact separated_symm (hpair ⟨j, hj⟩ ⟨i, hi⟩ hlt)
  exact ⟨hsep, fun px py => separated_disjoint hsep px py⟩

/-- The C2 scenario's frame set: four 64×64 frames of one animation. -/
def fourFrames : List Frame :=
  [Frame.mk (some "walk_0") (some "walk") 0 64 64 (some 10) 0,
   Frame.mk (some "walk_1") (some "walk") 1 64 64 (some 10) 1,
   Frame.mk (some "walk_2") (some "walk") 2 64 64 (some 10) 2,
   Frame.mk (some "walk_3") (some "walk") 3 64 64 (some 10) 3]

/-- Witness for C1 at the concrete scenario input (frames 0 and 1 of the
four-frame layout with padding 2). -/
theorem packer_rects_separated_witness :
    separated 2 ((packedRects fourFrames 2 2048).getD 0 emptyRect)
      ((packedRects fourFrames 2 2048).getD 1 emptyRect) ∧
    ∀ px py,
      ¬ (inPRect ((packedRects fourFrames 2 2048).getD 0 emptyRect) px py ∧
         inPRect ((packedRects fourFrames 2 2048).getD 1 emptyRect) px py) :=
  packer_rects_separated fourFrames 2 2048 (by decide) 0 1 (by decide) (by decide)
    (by decide)

/-- C2 counterexample: on the four-frame scenario the layout's sheet
size before power-of-two rounding is not 202×66 — the tracked running
maxima include the trailing padding after the last frame of the row
(width 266) and below the row (height 68). -/
theorem c2_sheet_size_cex :
    ¬ ((calculateLayout (sortFrames fourFrames) 2 2048).width = 202 ∧
       (calculateLayout (sortFrames fourFrames) 2 2048).height = 66) := by
  decide

/-- C2 amended: the packer assigns positions (2,2), (68,2), (134,2),
(200,2) to the four 64×64 frames with padding 2 and maxWidth 2048, and
the computed sheet size before any power-of-two rounding is 266×68
(currentX after the last advance is 2 + 4·66 = 266, and currentY +
rowHeight + padding is 2 + 64 + 2 = 68). -/
theorem c2_layout_values :
    (calculateLayout (sortFrames fourFrames) 2 2048).positions =
      [Pos.mk 2 2, Pos.mk 68 2, Pos.mk 134 2, Pos.mk 200 2] ∧
    (calculateLayout (sortFrames fourFrames) 2 2048).width = 266 ∧
    (calculateLayout (sortFrames fourFrames) 2 2048).height = 68 := by
  decide

/-- A frame wider than the maxWidth used in the C3 counterexample. -/
def oversizedFrame : Frame := Frame.mk (some "big") (some "anim") 0 100 1 none 0

/-- C3 counterexample: a single frame of width 100 packed with padding 0
and maxWidth 10 is still placed, and the computed sheet width 100
exceeds maxWidth — `sheetWidth ≤ maxWidth` does not hold for all
inputs. -/
theorem c3_sheet_width_cex :
    ¬ ((calculateLayout (sortFrames [oversizedFrame]) 0 10).width ≤ 10) := by
  decide

theorem calcLayoutAux_width_le (padding maxWidth : Nat) :
    ∀ (fs : List Frame) (cx cy rh sw sh : Nat),
      (∀ f ∈ fs, padding + f.width + padding ≤ maxWidth) →
      sw ≤ maxWidth →
      (calcLayoutAux padding maxWidth fs cx cy rh sw sh).width ≤ maxWidth := by
  intro fs
  induction fs with
  | nil =>
    intro cx cy rh sw sh _ hsw
    simpa [calcLayoutAux] using hsw
  | cons f fs ih =>
    intro cx cy rh sw sh hfit hsw
    have hf := hfit f (List.mem_cons_self f fs)
    have hrest : ∀ g ∈ fs, padding + g.width + padding ≤ maxWidth :=
      fun g hg => hfit g (List.mem_cons_of_mem f hg)
    by_cases hbr : cx + f.width + padding > maxWidth
    · simp only [calcLayoutAux, hbr, if_pos]
      exact ih _ _ _ _ _ hrest (by omega)
    · simp only [calcLayoutAux, hbr, if_neg, ite_false]
      exact ih _ _ _ _ _ hrest (by omega)

/-- C3 amended: the un-rounded sheet width is bounded by maxWidth for
every input in which each frame fits in a row together with the padding
on both sides (padding + width + padding ≤ maxWidth).  A frame violating
this bound is still placed, and then the sheet width can exceed
maxWidth, as the counterexample shows. -/
theorem sheet_width_le_maxWidth (frames : List Frame) (padding maxWidth : Nat)
    (hfit : ∀ f ∈ frames, padding + f.width + padding ≤ maxWidth) :
    (calculateLayout (sortFrames frames) padding maxWidth).width ≤ maxWidth := by
  unfold calculateLayout
  apply calcLayoutAux_width_le
  · intro f hf
    exact hfit f ((List.perm_insertionSort _ frames).mem_iff.mp hf)
  · omega

/-- Witness for the amended C3 at a concrete input. -/
theorem sheet_width_le_maxWidth_witness :
    (calculateLayout (sortFrames fourFrames) 2 2048).width ≤ 2048 :=
  sheet_width_le_maxWidth fourFrames 2 2048 (by decide)

/-! The atlas and animation metadata emitted by packFrames. -/

/-- JavaScript string coercion of a possibly-absent string (an absent
field interpolates as "undefined"). -/
def jsOptStr (o : Option String) : String :=
  match o with
  | some s => s
  | none => "undefined"

/-- The frame's atlas key:
`frame.name || animation_frameIndex` (a falsy name — absent or empty —
falls back to the template). -/
def frameName (f : Frame) : String :=
  match f.name with
  | some n =>
    if n = "" then jsOptStr f.animation ++ "_" ++ toString f.frameIndex else n
  | none => jsOptStr f.animation ++ "_" ++ toString f.frameIndex

/-- JavaScript `value || default` for numbers (0 is falsy). -/
def jsOrNat (o : Option Nat) (d : Nat) : Nat :=
  match o with
  | some v => if v = 0 then d else v
  | none => d

/-- sourceSize record of an atlas frame entry. -/
structure SourceSize where
  w : Nat
  h : Nat
deriving Repr, DecidableEq

/-- One value of the Phaser atlas `frames` hash. -/
structure AtlasFrameData where
  frame : PRect
  rotated : Bool
  trimmed : Bool
  spriteSourceSize : PRect
  sourceSize : SourceSize
deriving Repr, DecidableEq

/-- The atlas entry generatePhaserAtlas builds for a frame at its
assigned position. -/
def atlasEntry (f : Frame) (p : Pos) : AtlasFrameData :=
  { frame := PRect.mk p.x p.y f.width f.height
    rotated := false
    trimmed := false
    spriteSourceSize := PRect.mk 0 0 f.width f.height
    sourceSize := SourceSize.mk f.width f.height }

/-- meta block of the Phaser atlas. -/
structure AtlasMeta where
  app : String
  version : String
  image : String
  format : String
  sizeW : Nat
  sizeH : Nat
  scale : String
deriving Repr, DecidableEq

/-- Phaser atlas in hash format; the JavaScript object used as a map is
modelled as an association list in property order. -/
structure PhaserAtlas where
  frames : List (String × AtlasFrameData)
  meta : AtlasMeta
deriving Repr, DecidableEq

/-- JavaScript object property assignment `obj[k] = v`: overwrite in
place when the key exists, append otherwise. -/
def jsObjectSet {α : Type} (m : List (String × α)) (k : String) (v : α) :
    List (String × α) :=
  if m.any (fun p => p.1 == k) then
    m.map (fun p => if p.1 == k then (k, v) else p)
  else m ++ [(k, v)]

/-- JavaScript object property read `obj[k]`. -/
def jsObjectGet {α : Type} (m : List (String × α)) (k : String) : Option α :=
  (m.find? (fun p => p.1 == k)).map (fun p => p.2)

/-- generatePhaserAtlas (part_006 lines 146-189): every frame is written
into the `frames` hash under its name, paired positionally with the
layout positions. -/
def generatePhaserAtlas (frames : List Frame) (positions : List Pos)
    (sizeW sizeH : Nat) : PhaserAtlas :=
  { frames := (List.zip frames positions).foldl
      (fun m fp => jsObjectSet m (frameName fp.1) (atlasEntry fp.1 fp.2)) []
    meta := { app := "spraite", version := "1.0.0", image := "",
              format := "RGBA8888", sizeW := sizeW, sizeH := sizeH,
              scale := "1" } }

/-- One frame reference inside an animation definition. -/
structure AnimFrameRef where
  key : String
  frame : Nat
deriving Repr, DecidableEq

/-- One animation definition. -/
structure AnimDef where
  fps : Nat
  frames : List AnimFrameRef
  loop : Bool
deriving Repr, DecidableEq

/-- The reference pushed for a frame. -/
def animRef (f : Frame) : AnimFrameRef := AnimFrameRef.mk (frameName f) f.frameIndex

/-- Grouping step of generateAnimationsJson: skip frames with a falsy
animation name, create the bucket on first sight (taking
`frame.fps || 10`), and push the frame reference onto the bucket. -/
def pushAnimFrame (m : List (String × AnimDef)) (f : Frame) :
    List (String × AnimDef) :=
  match f.animation with
  | none => m
  | some a =>
    if a = "" then m
    else if m.any (fun p => p.1 == a) then
      m.map (fun p =>
        if p.1 == a then (p.1, AnimDef.mk p.2.fps (p.2.frames ++ [animRef f]) p.2.loop)
        else p)
    else m ++ [(a, AnimDef.mk (jsOrNat f.fps 10) [animRef f] true)]

/-- The per-animation stable sort by frame index
(`anim.frames.sort((a, b) => a.frame - b.frame)`). -/
def sortAnimFrames (l : List AnimFrameRef) : List AnimFrameRef :=
  List.insertionSort (fun x y => x.frame ≤ y.frame) l

/-- generateAnimationsJson (part_006 lines 196-224): group by animation,
then sort each bucket's frames by frame index. -/
def generateAnimationsJson (frames : List Frame) : List (String × AnimDef) :=
  (frames.foldl pushAnimFrame []).map
    (fun p => (p.1, AnimDef.mk p.2.fps (sortAnimFrames p.2.frames) p.2.loop))

/-- One composite operation of the sheet construction: a frame buffer
drawn at its assigned position. -/
structure Composite where
  input : Nat
  left : Nat
  top : Nat
deriving Repr, DecidableEq

/-- The packed sheet: its final dimensions and composite operations over
the fully transparent canvas. -/
structure SheetImage where
  width : Nat
  height : Nat
  composites : List Composite
deriving Repr, DecidableEq

/-- packFrames result. -/
structure AtlasResult where
  image : SheetImage
  atlas : PhaserAtlas
  animations : List (String × AnimDef)
deriving Repr, DecidableEq

/-- packFrames (part_006 lines 38-94); option defaults in the source are
padding 1, maxWidth 2048, powerOfTwo false.  The only failure is the
empty-input error; the composite list pairs the sorted frames with the
layout positions, the atlas is keyed by frame name over the sorted
frames, and the animations are grouped from the original frame list. -/
def packFrames (frames : List Frame) (padding maxWidth : Nat)
    (powerOfTwo : Bool) : Except String AtlasResult :=
  if frames = [] then Except.error ("No frames to pack")
  else
    let sortedFrames := sortFrames frames
    let layout := calculateLayout sortedFrames padding maxWidth
    let width := if powerOfTwo then nextPowerOfTwo layout.width else layout.width
    let height := if powerOfTwo then nextPowerOfTwo layout.height else layout.height
    let composites :=
      List.zipWith (fun p f => Composite.mk f.buffer p.x p.y) layout.positions sortedFrames
    Except.ok
      { image := SheetImage.mk width height composites
        atlas := generatePhaserAtlas sortedFrames layout.positions width height
        animations := generateAnimationsJson frames }

/-! Properties of nextPowerOfTwo (claim C8). -/

theorem npotAux_pow (n : Nat) :
    ∀ (power : Nat) (hp : 0 < power), (∃ k, power = 2 ^ k) →
      ∃ j, npotAux n power hp = 2 ^ j := by
  intro power hp
  induction power, hp using npotAux.induct n with
  | case1 power hp hlt ih =>
    intro hpk
    rw [npotAux, if_pos hlt]
    apply ih
    obtain ⟨k, hk⟩ := hpk
    exact ⟨k + 1, by subst hk; ring⟩
  | case2 power hp hge =>
    intro hpk
    rw [npotAux, if_neg hge]
    exact hpk

theorem npotAux_ge (n : Nat) :
    ∀ (power : Nat) (hp : 0 < power), n ≤ npotAux n power hp := by
  intro power hp
  induction power, hp using npotAux.induct n with
  | case1 power hp hlt ih =>
    rw [npotAux, if_pos hlt]
    exact ih
  | case2 power hp hge =>
    rw [npotAux, if_neg hge]
    omega

theorem npotAux_le (n : Nat) :
    ∀ (power : Nat) (hp : 0 < power) (m : Nat),
      power ≤ m → n ≤ m → (∃ k, power = 2 ^ k) → (∃ j, m = 2 ^ j) →
      npotAux n power hp ≤ m := by
  intro power hp
  induction power, hp using npotAux.induct n with
  | case1 power hp hlt ih =>
    intro m hpm hnm hpk hmj
    rw [npotAux, if_pos hlt]
    obtain ⟨k, hk⟩ := hpk
    obtain ⟨j, hj⟩ := hmj
    have hkj : k < j := by
      have hlt2 : (2 : Nat) ^ k < 2 ^ j := by omega
      exact (Nat.pow_lt_pow_iff_right (by omega)).mp hlt2
    have h2 : power * 2 ≤ m := by
      have : (2 : Nat) ^ (k + 1) ≤ 2 ^ j :=
        Nat.pow_le_pow_right (by omega) (by omega)
      have hpow : power * 2 = 2 ^ (k + 1) := by subst hk; ring
      omega
    exact ih m h2 hnm ⟨k + 1, by subst hk; ring⟩ ⟨j, hj⟩
  | case2 power hp hge =>
    intro m hpm _ _ _
    rw [npotAux, if_neg hge]
    exact hpm

/-- C8: with powerOfTwo requested, the final sheet dimensions are each
nextPowerOfTwo of the un-rounded layout dimension; nextPowerOfTwo
returns a power of two, at least its argument, no larger than any power
of two that is at least the argument (so it is the smallest such), and
it fixes exact powers of two; in particular 202 rounds to 256 and 66 to
128. -/
theorem power_of_two_rounding :
    (∀ n, ∃ k, nextPowerOfTwo n = 2 ^ k) ∧
    (∀ n, n ≤ nextPowerOfTwo n) ∧
    (∀ n j, n ≤ 2 ^ j → nextPowerOfTwo n ≤ 2 ^ j) ∧
    (∀ k, nextPowerOfTwo (2 ^ k) = 2 ^ k) ∧
    (∀ frames padding maxWidth, frames ≠ [] →
      ∃ r, packFrames frames padding maxWidth true = Except.ok r ∧
        r.image.width =
          nextPowerOfTwo (calculateLayout (sortFrames frames) padding maxWidth).width ∧
        r.image.height =
          nextPowerOfTwo (calculateLayout (sortFrames frames) padding maxWidth).height) ∧
    nextPowerOfTwo 202 = 256 ∧ nextPowerOfTwo 66 = 128 := by
  have hpow : ∀ n, ∃ k, nextPowerOfTwo n = 2 ^ k :=
    fun n => npotAux_pow n 1 (by omega) ⟨0, rfl⟩
  have hge : ∀ n, n ≤ nextPowerOfTwo n := fun n => npotAux_ge n 1 (by omega)
  have hle : ∀ n j, n ≤ 2 ^ j → nextPowerOfTwo n ≤ 2 ^ j := by
    intro n j hnj
    exact npotAux_le n 1 (by omega) (2 ^ j) (Nat.one_le_two_pow) hnj ⟨0, rfl⟩ ⟨j, rfl⟩
  refine ⟨hpow, hge, hle, ?_, ?_, ?_, ?_⟩
  · intro k
    exact Nat.le_antisymm (hle (2 ^ k) k le_rfl) (hge (2 ^ k))
  · intro frames padding maxWidth hne
    unfold packFrames
    rw [if_neg hne]
    exact ⟨_, rfl, rfl, rfl⟩
  · simp [nextPowerOfTwo, npotAux]
  · simp [nextPowerOfTwo, npotAux]

/-- Witness for C8 at concrete inputs. -/
theorem power_of_two_rounding_witness :
    (∃ r, packFrames fourFrames 2 2048 true = Except.ok r ∧
      r.image.width =
        nextPowerOfTwo (calculateLayout (sortFrames fourFrames) 2 2048).width ∧
      r.image.height =
        nextPowerOfTwo (calculateLayout (sortFrames fourFrames) 2 2048).height) ∧
    nextPowerOfTwo 266 ≤ 2 ^ 9 :=
  ⟨power_of_two_rounding.2.2.2.2.1 fourFrames 2 2048 (by decide),
   power_of_two_rounding.2.2.1 266 9 (by decide)⟩

/-! Properties of the JavaScript-object model used for the atlas frames
hash (claim C10). -/

/-- Number of entries of a modelled object with a given key. -/
def countKeys {α : Type} (m : List (String × α)) (k : String) : Nat :=
  m.countP (fun p => p.1 == k)

theorem jsObjectGet_cons {α : Type} (p : String × α) (m : List (String × α))
    (k : String) :
    jsObjectGet (p :: m) k = if p.1 == k then some p.2 else jsObjectGet m k := by
  by_cases h : p.1 == k <;> simp [jsObjectGet, List.find?_cons, h]

theorem jsObjectSet_cons_ne {α : Type} (p : String × α) (m : List (String × α))
    (k : String) (v : α) (h : ¬ p.1 = k) :
    jsObjectSet (p :: m) k v = p :: jsObjectSet m k v := by
  by_cases hm : m.any (fun q => q.1 == k) <;>
    simp [jsObjectSet, List.any_cons, h, hm]

theorem jsObjectGet_set_self {α : Type} (m : List (String × α)) (k : String)
    (v : α) : jsObjectGet (jsObjectSet m k v) k = some v := by
  induction m with
  | nil => simp [jsObjectSet, jsObjectGet]
  | cons p m ih =>
    by_cases hpk : p.1 = k
    · simp [jsObjectSet, List.any_cons, hpk, jsObjectGet, List.find?_cons]
    · rw [jsObjectSet_cons_ne p m k v hpk, jsObjectGet_cons]
      simp only [beq_iff_eq, hpk, if_false, ite_false]
      exact ih

theorem jsObjectGet_map_update {α : Type} (m : List (String × α)) (k : String)
    (v : α) (n : String) (h : ¬ k = n) :
    jsObjectGet (m.map fun p => if p.1 == k then (k, v) else p) n =
      jsObjectGet m n := by
  induction m with
  | nil => simp
  | cons p m ih =>
    simp only [List.map_cons]
    by_cases hpk : p.1 = k
    · have hhead : (if p.1 == k then (k, v) else p) = (k, v) := by simp [hpk]
      rw [hhead, jsObjectGet_cons, jsObjectGet_cons]
      have h1 : ¬ ((k : String) == n) = true := by simp [h]
      have h2 : ¬ (p.1 == n) = true := by simp [hpk, h]
      rw [if_neg h1, if_neg h2]
      exact ih
    · have hhead : (if p.1 == k then (k, v) else p) = p := by simp [hpk]
      rw [hhead, jsObjectGet_cons, jsObjectGet_cons]
      by_cases hpn : p.1 = n
      · rw [if_pos (by simp [hpn]), if_pos (by simp [hpn])]
      · rw [if_neg (by simp [hpn]), if_neg (by simp [hpn])]
        exact ih

theorem jsObjectGet_set_other {α : Type} (m : List (String × α)) (k : String)
    (v : α) (n : String) (h : ¬ k = n) :
    jsObjectGet (jsObjectSet m k v) n = jsObjectGet m n := by
  unfold jsObjectSet
  by_cases hm : m.any (fun p => p.1 == k)
  · rw [if_pos hm]
    exact jsObjectGet_map_update m k v n h
  · rw [if_neg hm]
    unfold jsObjectGet
    rw [List.find?_append]
    have hkn : ((k : String) == n) = false := by simp [h]
    have hone : List.find? (fun p => p.1 == n) [(k, v)] = none := by
      simp [List.find?, hkn]
    simp [hone]

theorem countKeys_set_le {α : Type} (m : List (String × α)) (k : String)
    (v : α) (n : String) (hm : countKeys m n ≤ 1) :
    countKeys (jsObjectSet m k v) n ≤ 1 := by
  unfold jsObjectSet
  by_cases hany : m.any (fun p => p.1 == k)
  · rw [if_pos hany]
    have hmap : countKeys (m.map fun p => if p.1 == k then (k, v) else p) n =
        countKeys m n := by
      unfold countKeys
      rw [List.countP_map]
      apply List.countP_congr
      intro p _
      by_cases hpk : p.1 = k <;> simp [Function.comp, hpk]
    omega
  · rw [if_neg hany]
    unfold countKeys at hm ⊢
    rw [List.countP_append]
    by_cases hkn : k = n
    · have hzero : m.countP (fun p => p.1 == n) = 0 := by
        rw [List.countP_eq_zero]
        intro p hp
        simp only [List.any_eq_true, beq_iff_eq] at hany
        simp only [beq_iff_eq]
        intro hc
        exact hany ⟨p, hp, by rw [hc, hkn]⟩
      simp [hzero, List.countP_cons, hkn]
    · simp [List.countP_cons, hkn, hm]

/-- The atlas frames hash built from frame/position pairs. -/
def atlasFramesHash (l : List (Frame × Pos)) : List (String × AtlasFrameData) :=
  l.foldl (fun m fp => jsObjectSet m (frameName fp.1) (atlasEntry fp.1 fp.2)) []

theorem generatePhaserAtlas_frames (frames : List Frame) (positions : List Pos)
    (sizeW sizeH : Nat) :
    (generatePhaserAtlas frames positions sizeW sizeH).frames =
      atlasFramesHash (List.zip frames positions) := rfl

theorem countKeys_atlasFramesHash_le (l : List (Frame × Pos)) (n : String) :
    countKeys (atlasFramesHash l) n ≤ 1 := by
  induction l using List.reverseRecOn with
  | nil => simp [atlasFramesHash, countKeys]
  | append_singleton l p ih =>
    unfold atlasFramesHash at ih ⊢
    rw [List.foldl_append, List.foldl_cons, List.foldl_nil]
    exact countKeys_set_le _ _ _ _ ih

/-- Writing every pair into the hash in order leaves, for each name, the
entry of the last pair bearing that name. -/
theorem jsObjectGet_atlasFramesHash (l : List (Frame × Pos)) (n : String) :
    jsObjectGet (atlasFramesHash l) n =
      ((l.filter (fun fp => frameName fp.1 == n)).getLast?).map
        (fun fp => atlasEntry fp.1 fp.2) := by
  induction l using List.reverseRecOn with
  | nil => simp [atlasFramesHash, jsObjectGet]
  | append_singleton l p ih =>
    unfold atlasFramesHash at ih ⊢
    rw [List.foldl_append, List.foldl_cons, List.foldl_nil, List.filter_append]
    by_cases hp : frameName p.1 = n
    · rw [← hp, jsObjectGet_set_self]
      have hfil : List.filter (fun fp => frameName fp.1 == frameName p.1) [p] = [p] := by
        simp
      rw [hfil, List.getLast?_concat]
      simp
    · have hpb : (frameName p.1 == n) = false := by simp [hp]
      have hfil : List.filter (fun fp => frameName fp.1 == n) [p] = [] := by
        simp [hpb]
      rw [jsObjectGet_set_other _ _ _ _ hp, ih, hfil, List.append_nil]

theorem calcLayoutAux_positions_length (padding maxWidth : Nat) :
    ∀ (fs : List Frame) (cx cy rh sw sh : Nat),
      (calcLayoutAux padding maxWidth fs cx cy rh sw sh).positions.length =
        fs.length := by
  intro fs
  induction fs with
  | nil => intro cx cy rh sw sh; simp [calcLayoutAux]
  | cons f fs ih =>
    intro cx cy rh sw sh
    simp only [calcLayoutAux, List.length_cons]
    rw [ih]

theorem calculateLayout_positions_length (frames : List Frame)
    (padding maxWidth : Nat) :
    (calculateLayout frames padding maxWidth).positions.length = frames.length := by
  unfold calculateLayout
  exact calcLayoutAux_positions_length padding maxWidth frames padding padding 0 0 0

/-- The two duplicate-named frames of the C10 scenario (same name,
equal heights, different widths and buffers). -/
def dupFrameA : Frame := Frame.mk (some "dup") (some "walk") 0 10 10 (some 10) 0

/-- Second duplicate-named frame; with equal heights the stable sort
keeps it after `dupFrameA`. -/
def dupFrameB : Frame := Frame.mk (some "dup") (some "walk") 1 20 10 (some 10) 1

/-- C10: packFrames performs no duplicate-name detection — it succeeds
on every non-empty input; every frame's buffer is composited onto the
sheet (one composite per input frame, duplicates included); the frames
hash holds at most one entry per name, namely the entry of the last
frame in height-sorted order bearing that name; and on the concrete
duplicate pair the single "dup" entry carries the second (later-sorted)
frame's rectangle while both buffers are composited. -/
theorem duplicate_names_last_wins :
    (∀ frames padding maxWidth powerOfTwo, frames ≠ [] →
      ∃ r, packFrames frames padding maxWidth powerOfTwo = Except.ok r) ∧
    (∀ frames padding maxWidth powerOfTwo r,
      packFrames frames padding maxWidth powerOfTwo = Except.ok r →
      r.image.composites.length = frames.length ∧
      (∀ n, countKeys r.atlas.frames n ≤ 1) ∧
      (∀ n, jsObjectGet r.atlas.frames n =
        ((((sortFrames frames).zip
            (calculateLayout (sortFrames frames) padding maxWidth).positions).filter
          (fun fp => frameName fp.1 == n)).getLast?).map
            (fun fp => atlasEntry fp.1 fp.2))) ∧
    (∃ r, packFrames [dupFrameA, dupFrameB] 2 2048 false = Except.ok r ∧
      countKeys r.atlas.frames "dup" = 1 ∧
      jsObjectGet r.atlas.frames "dup" = some (atlasEntry dupFrameB (Pos.mk 14 2)) ∧
      r.image.composites.length = 2) := by
  have hok : ∀ frames padding maxWidth powerOfTwo r,
      packFrames frames padding maxWidth powerOfTwo = Except.ok r →
      r.image.composites.length = frames.length ∧
      (∀ n, countKeys r.atlas.frames n ≤ 1) ∧
      (∀ n, jsObjectGet r.atlas.frames n =
        ((((sortFrames frames).zip
            (calculateLayout (sortFrames frames) padding maxWidth).positions).filter
          (fun fp => frameName fp.1 == n)).getLast?).map
            (fun fp => atlasEntry fp.1 fp.2)) := by
    intro frames padding maxWidth powerOfTwo r h
    unfold packFrames at h
    by_cases hne : frames = []
    · rw [if_pos hne] at h
      cases h
    · rw [if_neg hne] at h
      injection h with h
      subst h
      refine ⟨?_, ?_, ?_⟩
      · simp only [List.length_zipWith, calculateLayout_positions_length]
        simp [sortFrames, List.length_insertionSort]
      · intro n
        rw [generatePhaserAtlas_frames]
        exact countKeys_atlasFramesHash_le _ n
      · intro n
        rw [generatePhaserAtlas_frames]
        exact jsObjectGet_atlasFramesHash _ n
  refine ⟨?_, hok, ?_⟩
  · intro frames padding maxWidth powerOfTwo hne
    unfold packFrames
    rw [if_neg hne]
    exact ⟨_, rfl⟩
  · refine ⟨_, rfl, ?_, ?_, ?_⟩ <;> decide

/-- Witness for C10, applying the theorem at the concrete duplicate
input. -/
theorem duplicate_names_last_wins_witness :
    ∃ r, packFrames [dupFrameA, dupFrameB] 2 2048 false = Except.ok r ∧
      r.image.composites.length = 2 := by
  obtain ⟨r, hr⟩ :=
    duplicate_names_last_wins.1 [dupFrameA, dupFrameB] 2 2048 false (by decide)
  have hlen := (duplicate_names_last_wins.2.1 _ 2 2048 false r hr).1
  exact ⟨r, hr, hlen.trans rfl⟩

/-! Characterization of the animation grouping (claim C7). -/

theorem jsObjectGet_eq_none_iff {α : Type} (m : List (String × α)) (k : String) :
    jsObjectGet m k = none ↔ (m.any fun p => p.1 == k) = false := by
  unfold jsObjectGet
  rw [Option.map_eq_none', List.find?_eq_none, List.any_eq_false]

theorem jsObjectGet_mapval_self {α : Type} (m : List (String × α)) (k : String)
    (g : α → α) (d : α) (h : jsObjectGet m k = some d) :
    jsObjectGet (m.map fun p => if p.1 == k then (p.1, g p.2) else p) k =
      some (g d) := by
  induction m with
  | nil => simp [jsObjectGet] at h
  | cons p m ih =>
    rw [jsObjectGet_cons] at h
    simp only [List.map_cons]
    by_cases hb : (p.1 == k) = true
    · rw [if_pos hb] at h
      injection h with h
      subst h
      rw [show (if (p.1 == k) = true then (p.1, g p.2) else p) = (p.1, g p.2) from
        if_pos hb]
      rw [jsObjectGet_cons, if_pos hb]
    · rw [if_neg hb] at h
      rw [show (if (p.1 == k) = true then (p.1, g p.2) else p) = p from if_neg hb]
      rw [jsObjectGet_cons, if_neg hb]
      exact ih h

theorem jsObjectGet_mapval_other {α : Type} (m : List (String × α)) (k : String)
    (g : α → α) (n : String) (h : ¬ k = n) :
    jsObjectGet (m.map fun p => if p.1 == k then (p.1, g p.2) else p) n =
      jsObjectGet m n := by
  induction m with
  | nil => simp
  | cons p m ih =>
    simp only [List.map_cons]
    have hkey : (if (p.1 == k) = true then (p.1, g p.2) else p).1 = p.1 := by
      by_cases hb : (p.1 == k) = true <;> simp [hb]
    rw [jsObjectGet_cons, jsObjectGet_cons, hkey]
    by_cases hpn : (p.1 == n) = true
    · rw [if_pos hpn, if_pos hpn]
      have hpk : ¬ (p.1 == k) = true := by
        simp only [beq_iff_eq] at hpn ⊢
        intro hc
        exact h (hc ▸ hpn)
      rw [if_neg hpk]
    · rw [if_neg hpn, if_neg hpn]
      exact ih

theorem jsObjectGet_append_single_self {α : Type} (m : List (String × α))
    (k : String) (v : α) (h : jsObjectGet m k = none) :
    jsObjectGet (m ++ [(k, v)]) k = some v := by
  unfold jsObjectGet at h ⊢
  rw [List.find?_append]
  have hf : List.find? (fun p => p.1 == k) m = none := by
    cases hfind : List.find? (fun p => p.1 == k) m with
    | none => rfl
    | some p => rw [hfind] at h; simp at h
  rw [hf]
  simp [List.find?]

theorem jsObjectGet_append_single_other {α : Type} (m : List (String × α))
    (b : String) (v : α) (n : String) (h : ¬ b = n) :
    jsObjectGet (m ++ [(b, v)]) n = jsObjectGet m n := by
  unfold jsObjectGet
  rw [List.find?_append]
  have hone : List.find? (fun p => p.1 == n) [(b, v)] = none := by
    have hb : ((b : String) == n) = false := by simp [h]
    simp [List.find?, hb]
  rw [hone]
  cases List.find? (fun p => p.1 == n) m <;> simp [Option.orElse]

theorem jsObjectGet_map_snd {α : Type} (m : List (String × α)) (g : α → α)
    (n : String) :
    jsObjectGet (m.map fun p => (p.1, g p.2)) n = (jsObjectGet m n).map g := by
  induction m with
  | nil => simp [jsObjectGet]
  | cons p m ih =>
    simp only [List.map_cons]
    rw [jsObjectGet_cons, jsObjectGet_cons]
    by_cases hpn : (p.1 == n) = true
    · rw [if_pos hpn, if_pos hpn]
      rfl
    · rw [if_neg hpn, if_neg hpn]
      exact ih

/-- The frames of an input list that the grouping assigns to the
animation bucket `a`. -/
def animFilter (a : String) (frames : List Frame) : List Frame :=
  frames.filter (fun f => f.animation == some a)

theorem pushFold_lookup (a : String) (ha : ¬ a = "") (frames : List Frame) :
    (jsObjectGet (frames.foldl pushAnimFrame []) a).map (fun d => d.frames) =
      if animFilter a frames = [] then none
      else some ((animFilter a frames).map animRef) := by
  induction frames using List.reverseRecOn with
  | nil => simp [jsObjectGet, animFilter]
  | append_singleton l f ih =>
    rw [List.foldl_append, List.foldl_cons, List.foldl_nil]
    unfold animFilter at ih ⊢
    rw [List.filter_append]
    cases hfa : f.animation with
    | none =>
      have hpush : pushAnimFrame (l.foldl pushAnimFrame []) f =
          l.foldl pushAnimFrame [] := by
        simp only [pushAnimFrame, hfa]
      have hbyf : List.filter (fun g => g.animation == some a) [f] = [] := by
        simp [List.filter, hfa]
      rw [hpush, hbyf, List.append_nil]
      exact ih
    | some b =>
      by_cases hba : b = a
      · subst hba
        have hbne : ¬ b = "" := ha
        have hbyf : List.filter (fun g => g.animation == some b) [f] = [f] := by
          simp [List.filter, hfa]
        rw [hbyf]
        by_cases hany :
            ((l.foldl pushAnimFrame []).any fun p => p.1 == b) = true
        · -- the bucket exists: its frames get the new reference appended
          obtain ⟨d, hd⟩ : ∃ d, jsObjectGet (l.foldl pushAnimFrame []) b = some d := by
            cases hlook : jsObjectGet (l.foldl pushAnimFrame []) b with
            | none =>
              rw [jsObjectGet_eq_none_iff] at hlook
              rw [hlook] at hany
              cases hany
            | some d => exact ⟨d, rfl⟩
          have hpush : pushAnimFrame (l.foldl pushAnimFrame []) f =
              (l.foldl pushAnimFrame []).map fun p =>
                if p.1 == b then
                  (p.1, AnimDef.mk p.2.fps (p.2.frames ++ [animRef f]) p.2.loop)
                else p := by
            simp only [pushAnimFrame, hfa]
            rw [if_neg hbne, if_pos hany]
          rw [hpush]
          rw [jsObjectGet_mapval_self _ b
            (fun dd => AnimDef.mk dd.fps (dd.frames ++ [animRef f]) dd.loop) d hd]
          rw [hd] at ih
          by_cases hfil : List.filter (fun g => g.animation == some b) l = []
          · rw [if_pos hfil] at ih
            cases ih
          · rw [if_neg hfil] at ih
            have hdf : d.frames =
                (List.filter (fun g => g.animation == some b) l).map animRef := by
              injection ih
            have hne2 :
                ¬ (List.filter (fun g => g.animation == some b) l ++ [f]) = [] := by
              simp
            rw [if_neg hne2]
            simp [hdf]
        · -- no bucket yet: a fresh one is appended with the single reference
          have hnone : jsObjectGet (l.foldl pushAnimFrame []) b = none := by
            rw [jsObjectGet_eq_none_iff]
            cases hres : (l.foldl pushAnimFrame []).any fun p => p.1 == b
            · rfl
            · exact absurd hres hany
          have hpush : pushAnimFrame (l.foldl pushAnimFrame []) f =
              l.foldl pushAnimFrame [] ++
                [(b, AnimDef.mk (jsOrNat f.fps 10) [animRef f] true)] := by
            simp only [pushAnimFrame, hfa]
            rw [if_neg hbne, if_neg hany]
          rw [hpush, jsObjectGet_append_single_self _ _ _ hnone]
          have hfil : List.filter (fun g => g.animation == some b) l = [] := by
            by_cases hfil : List.filter (fun g => g.animation == some b) l = []
            · exact hfil
            · rw [hnone, if_neg hfil] at ih
              cases ih
          rw [hfil]
          simp
      · -- a frame of a different animation leaves bucket `a` untouched
        have hbyf : List.filter (fun g => g.animation == some a) [f] = [] := by
          have : (f.animation == some a) = false := by
            rw [hfa]
            simp [hba]
          simp [List.filter, this]
        rw [hbyf, List.append_nil]
        by_cases hbe : b = ""
        · have hpush : pushAnimFrame (l.foldl pushAnimFrame []) f =
              l.foldl pushAnimFrame [] := by
            simp only [pushAnimFrame, hfa]
            rw [if_pos hbe]
          rw [hpush]
          exact ih
        · have hlook : jsObjectGet (pushAnimFrame (l.foldl pushAnimFrame []) f) a =
              jsObjectGet (l.foldl pushAnimFrame []) a := by
            simp only [pushAnimFrame, hfa]
            rw [if_neg hbe]
            by_cases hany :
                ((l.foldl pushAnimFrame []).any fun p => p.1 == b) = true
            · rw [if_pos hany]
              exact jsObjectGet_mapval_other (l.foldl pushAnimFrame []) b
                (fun dd => AnimDef.mk dd.fps (dd.frames ++ [animRef f]) dd.loop) a hba
            · rw [if_neg hany]
              exact jsObjectGet_append_single_other _ b _ a hba
          rw [hlook]
          exact ih

/-- The animation key "" never receives a bucket (a falsy animation name
is skipped by the grouping). -/
theorem pushFold_lookup_empty_key (frames : List Frame) :
    ∀ m : List (String × AnimDef), jsObjectGet m "" = none →
      jsObjectGet (frames.foldl pushAnimFrame m) "" = none := by
  induction frames with
  | nil => intro m hm; simpa using hm
  | cons f frames ih =>
    intro m hm
    rw [List.foldl_cons]
    apply ih
    cases hfa : f.animation with
    | none =>
      simp only [pushAnimFrame, hfa]
      exact hm
    | some b =>
      by_cases hbe : b = ""
      · simp only [pushAnimFrame, hfa]
        rw [if_pos hbe]
        exact hm
      · simp only [pushAnimFrame, hfa]
        rw [if_neg hbe]
        by_cases hany : (m.any fun p => p.1 == b) = true
        · rw [if_pos hany]
          rw [jsObjectGet_mapval_other m b
            (fun dd => AnimDef.mk dd.fps (dd.frames ++ [animRef f]) dd.loop) "" hbe]
          exact hm
        · rw [if_neg hany]
          rw [jsObjectGet_append_single_other _ b _ "" hbe]
          exact hm

theorem jsObjectGet_sortmap (m : List (String × AnimDef)) (n : String) :
    jsObjectGet
      (m.map fun p => (p.1, AnimDef.mk p.2.fps (sortAnimFrames p.2.frames) p.2.loop)) n =
      (jsObjectGet m n).map
        (fun d => AnimDef.mk d.fps (sortAnimFrames d.frames) d.loop) :=
  jsObjectGet_map_snd m (fun d => AnimDef.mk d.fps (sortAnimFrames d.frames) d.loop) n

theorem generateAnimationsJson_lookup (frames : List Frame) (a : String)
    (ha : ¬ a = "") :
    (jsObjectGet (generateAnimationsJson frames) a).map (fun d => d.frames) =
      if animFilter a frames = [] then none
      else some (sortAnimFrames ((animFilter a frames).map animRef)) := by
  unfold generateAnimationsJson
  rw [jsObjectGet_sortmap]
  have h := pushFold_lookup a ha frames
  cases hlook : jsObjectGet (frames.foldl pushAnimFrame []) a with
  | none =>
    rw [hlook] at h
    by_cases hfil : animFilter a frames = []
    · rw [if_pos hfil]
      simp
    · rw [if_neg hfil] at h
      simp at h
  | some d =>
    rw [hlook] at h
    by_cases hfil : animFilter a frames = []
    · rw [if_pos hfil] at h
      cases h
    · rw [if_neg hfil] at h
      have hdf : d.frames = (animFilter a frames).map animRef := by injection h
      rw [if_neg hfil]
      simp [hdf]

/-- Frame "a" of the C7 counterexample (animation walk, frameIndex 0). -/
def permFrameA : Frame := Frame.mk (some "a") (some "walk") 0 8 8 (some 10) 0

/-- Frame "b" of the C7 counterexample (same animation and frameIndex as
permFrameA but a different name). -/
def permFrameB : Frame := Frame.mk (some "b") (some "walk") 0 8 8 (some 10) 1

/-- Frame "c" used in the C7 witness (frameIndex 1, distinct from
permFrameA). -/
def permFrameC : Frame := Frame.mk (some "c") (some "walk") 1 8 8 (some 10) 2

/-- C7 counterexample: two frames of the same animation sharing
frameIndex 0 under different names.  The input lists are permutations of
each other, yet the emitted per-animation frame lists differ (the stable
sort preserves insertion order among equal frame indices), so the
emitted order does not depend only on frameIndex. -/
theorem c7_order_perm_cex :
    List.Perm [permFrameA, permFrameB] [permFrameB, permFrameA] ∧
    ¬ ((jsObjectGet (generateAnimationsJson [permFrameA, permFrameB]) "walk").map
        (fun d => d.frames) =
       (jsObjectGet (generateAnimationsJson [permFrameB, permFrameA]) "walk").map
        (fun d => d.frames)) := by
  constructor
  · exact List.Perm.swap permFrameB permFrameA []
  · decide

/-- C7 amended: every emitted animation's frame references are sorted by
frameIndex ascending, and — provided no two frames of the same animation
share a frameIndex (the spec's frame-identity invariant; with shared
indices the stable sort preserves insertion order, see the
counterexample) — the emitted per-animation frame lists are identical
across any two input lists that are permutations of each other, hence
independent of the height-descending layout sort. -/
theorem animation_order_perm_invariant :
    (∀ (frames : List Frame) (a : String) (d : AnimDef),
      jsObjectGet (generateAnimationsJson frames) a = some d →
      List.Pairwise (fun x y => x.frame ≤ y.frame) d.frames) ∧
    (∀ l1 l2 : List Frame, l1.Perm l2 →
      (∀ f1 ∈ l1, ∀ f2 ∈ l1, f1.animation = f2.animation →
        f1.frameIndex = f2.frameIndex → animRef f1 = animRef f2) →
      ∀ a : String,
        (jsObjectGet (generateAnimationsJson l1) a).map (fun d => d.frames) =
        (jsObjectGet (generateAnimationsJson l2) a).map (fun d => d.frames)) := by
  haveI htot : IsTotal AnimFrameRef (fun x y => x.frame ≤ y.frame) :=
    ⟨fun a b => Nat.le_total a.frame b.frame⟩
  haveI htrans : IsTrans AnimFrameRef (fun x y => x.frame ≤ y.frame) :=
    ⟨fun a b c hab hbc => Nat.le_trans hab hbc⟩
  constructor
  · intro frames a d h
    unfold generateAnimationsJson at h
    rw [jsObjectGet_sortmap] at h
    cases hl : jsObjectGet (frames.foldl pushAnimFrame []) a with
    | none =>
      rw [hl] at h
      simp at h
    | some d0 =>
      rw [hl] at h
      injection h with h
      subst h
      exact List.sorted_insertionSort _ d0.frames
  · intro l1 l2 hperm hdup a
    by_cases ha : a = ""
    · subst ha
      have h0 : jsObjectGet ([] : List (String × AnimDef)) "" = none := rfl
      have h1 : jsObjectGet (generateAnimationsJson l1) "" = none := by
        unfold generateAnimationsJson
        rw [jsObjectGet_sortmap, pushFold_lookup_empty_key l1 [] h0]
        rfl
      have h2 : jsObjectGet (generateAnimationsJson l2) "" = none := by
        unfold generateAnimationsJson
        rw [jsObjectGet_sortmap, pushFold_lookup_empty_key l2 [] h0]
        rfl
      rw [h1, h2]
    · rw [generateAnimationsJson_lookup l1 a ha, generateAnimationsJson_lookup l2 a ha]
      have hpf : (animFilter a l1).Perm (animFilter a l2) := hperm.filter _
      by_cases hfil : animFilter a l1 = []
      · have hpf2 : List.Perm [] (animFilter a l2) := hfil ▸ hpf
        have hfil2 : animFilter a l2 = [] := hpf2.symm.eq_nil
        rw [if_pos hfil, if_pos hfil2]
      · have hfil2 : ¬ animFilter a l2 = [] := by
          intro hc
          exact hfil ((hc ▸ hpf).eq_nil)
        rw [if_neg hfil, if_neg hfil2]
        -- both sides are the sorted images of permuted lists with
        -- pairwise-distinct frame indices, so they are equal
        have hmem : ∀ z ∈ (animFilter a l1).map animRef ++ (animFilter a l2).map animRef,
            ∃ f, f ∈ l1 ∧ f.animation = some a ∧ z = animRef f := by
          intro z hz
          rcases List.mem_append.mp hz with hz | hz
          · obtain ⟨f, hf, rfl⟩ := List.mem_map.mp hz
            obtain ⟨hf1, hf2⟩ := List.mem_filter.mp hf
            exact ⟨f, hf1, by simpa using hf2, rfl⟩
          · obtain ⟨f, hf, rfl⟩ := List.mem_map.mp hz
            obtain ⟨hf1, hf2⟩ := List.mem_filter.mp hf
            exact ⟨f, hperm.mem_iff.mpr hf1, by simpa using hf2, rfl⟩
        have hkey : ∀ x ∈ (animFilter a l1).map animRef ++ (animFilter a l2).map animRef,
            ∀ y ∈ (animFilter a l1).map animRef ++ (animFilter a l2).map animRef,
            x.frame = y.frame → x = y := by
          intro x hx y hy hxy
          obtain ⟨f1, hf1, ha1, rfl⟩ := hmem x hx
          obtain ⟨f2, hf2, ha2, rfl⟩ := hmem y hy
          exact hdup f1 hf1 f2 hf2 (ha1.trans ha2.symm) hxy
        have hanti : ∀ x y : AnimFrameRef,
            (x.frame < y.frame ∨ x = y) → (y.frame < x.frame ∨ y = x) → x = y := by
          intro x y hxy hyx
          rcases hxy with h | h
          · rcases hyx with h2 | h2
            · omega
            · exact h2.symm
          · exact h
        haveI hAS : IsAntisymm AnimFrameRef (fun x y => x.frame < y.frame ∨ x = y) :=
          ⟨hanti⟩
        have hs : ∀ L : List AnimFrameRef,
            (∀ x ∈ L, ∀ y ∈ L, x.frame = y.frame → x = y) →
            List.Pairwise (fun x y => x.frame < y.frame ∨ x = y) (sortAnimFrames L) := by
          intro L hL
          have hsle := List.sorted_insertionSort
            (fun x y : AnimFrameRef => x.frame ≤ y.frame) L
          refine List.Pairwise.imp_of_mem ?_ hsle
          intro x y hx hy hxy
          have hx2 : x ∈ L := (List.perm_insertionSort _ L).mem_iff.mp hx
          have hy2 : y ∈ L := (List.perm_insertionSort _ L).mem_iff.mp hy
          by_cases heq : x.frame = y.frame
          · exact Or.inr (hL x hx2 y hy2 heq)
          · exact Or.inl (by omega)
        have hkey1 : ∀ x ∈ (animFilter a l1).map animRef,
            ∀ y ∈ (animFilter a l1).map animRef, x.frame = y.frame → x = y :=
          fun x hx y hy =>
            hkey x (List.mem_append.mpr (Or.inl hx)) y (List.mem_append.mpr (Or.inl hy))
        have hkey2 : ∀ x ∈ (animFilter a l2).map animRef,
            ∀ y ∈ (animFilter a l2).map animRef, x.frame = y.frame → x = y :=
          fun x hx y hy =>
            hkey x (List.mem_append.mpr (Or.inr hx)) y (List.mem_append.mpr (Or.inr hy))
        have hp : (sortAnimFrames ((animFilter a l1).map animRef)).Perm
            (sortAnimFrames ((animFilter a l2).map animRef)) :=
          ((List.perm_insertionSort _ _).trans (hpf.map animRef)).trans
            (List.perm_insertionSort _ _).symm
        exact congrArg some
          (List.eq_of_perm_of_sorted hp (hs _ hkey1) (hs _ hkey2))

/-- Witness for the amended C7 at a concrete permuted pair with distinct
frame indices. -/
theorem animation_order_perm_invariant_witness :
    (jsObjectGet (generateAnimationsJson [permFrameA, permFrameC]) "walk").map
      (fun d => d.frames) =
    (jsObjectGet (generateAnimationsJson [permFrameC, permFrameA]) "walk").map
      (fun d => d.frames) :=
  animation_order_perm_invariant.2 [permFrameA, permFrameC] [permFrameC, permFrameA]
    (List.Perm.swap permFrameC permFrameA []) (by decide) "walk"

/-! Strip slicer (src/processor/slicer.js, claim C4).  The pixel
operations are modelled by the extraction rectangles the code passes to
the image library; the strip is characterized by its actual width and
height. -/

/-- One extracted frame: the extraction rectangle that produced its
buffer (bufLeft/bufTop/bufWidth/bufHeight, cropped to the strip), plus
the metadata fields the code records (index, x, y, nominal width and
height). -/
structure SlicedFrame where
  bufLeft : Nat
  bufTop : Nat
  bufWidth : Nat
  bufHeight : Nat
  index : Nat
  x : Nat
  y : Nat
  width : Nat
  height : Nat
deriving Repr, DecidableEq

/-- The all-zero sliced frame, used as the default for indexed access. -/
def emptySlice : SlicedFrame := SlicedFrame.mk 0 0 0 0 0 0 0 0 0

/-- The dimension-mismatch warnings sliceStrip can log. -/
inductive SliceWarning where
  | widthMismatch (expected got : Nat)
  | heightMismatch (expected got : Nat)
deriving Repr, DecidableEq

/-- Extraction loop of sliceStrip: frame `i` is cut at `x = i*frameWidth,
y = 0`; the loop breaks as soon as `x + frameWidth` exceeds the strip's
actual width, and the extraction rectangle is clamped to the strip
(`min frameWidth (stripW - x)` wide, `min frameHeight stripH` tall). -/
def sliceFramesLoop (stripW stripH fw fh : Nat) : Nat → Nat → List SlicedFrame
  | _, 0 => []
  | i, n + 1 =>
    if i * fw + fw > stripW then []
    else
      SlicedFrame.mk (i * fw) 0 (min fw (stripW - i * fw)) (min fh stripH)
          i (i * fw) 0 fw fh ::
        sliceFramesLoop stripW stripH fw fh (i + 1) n

/-- sliceStrip(strip, frameWidth, frameHeight, frameCount): returns the
extracted frames together with the dimension-mismatch warnings it logs
(which never abort the call). -/
def sliceStrip (stripW stripH fw fh frameCount : Nat) :
    List SlicedFrame × List SliceWarning :=
  ((sliceFramesLoop stripW stripH fw fh 0 frameCount),
    (if stripW = fw * frameCount then []
      else [SliceWarning.widthMismatch (fw * frameCount) stripW]) ++
    (if stripH = fh then [] else [SliceWarning.heightMismatch fh stripH]))

theorem sliceFramesLoop_length (stripW stripH fw fh : Nat) (hfw : 0 < fw) :
    ∀ (n i : Nat),
      (sliceFramesLoop stripW stripH fw fh i n).length =
        min n (stripW / fw - i) := by
  intro n
  induction n with
  | zero => intro i; simp [sliceFramesLoop]
  | succ n ih =>
    intro i
    have hdiv : i * fw + fw ≤ stripW ↔ i + 1 ≤ stripW / fw := by
      rw [Nat.le_div_iff_mul_le hfw, Nat.succ_mul]
    by_cases hbr : i * fw + fw > stripW
    · rw [sliceFramesLoop, if_pos hbr]
      have : stripW / fw ≤ i := by omega
      simp
      omega
    · rw [sliceFramesLoop, if_neg hbr]
      rw [List.length_cons, ih (i + 1)]
      have : i + 1 ≤ stripW / fw := by omega
      omega

theorem sliceFramesLoop_length_fw_zero (stripW stripH fh : Nat) :
    ∀ (n i : Nat), (sliceFramesLoop stripW stripH 0 fh i n).length = n := by
  intro n
  induction n with
  | zero => intro i; simp [sliceFramesLoop]
  | succ n ih =>
    intro i
    rw [sliceFramesLoop, if_neg (by omega)]
    rw [List.length_cons, ih (i + 1)]

theorem sliceFramesLoop_getD (stripW stripH fw fh : Nat) :
    ∀ (n i j : Nat), j < (sliceFramesLoop stripW stripH fw fh i n).length →
      (sliceFramesLoop stripW stripH fw fh i n).getD j emptySlice =
        SlicedFrame.mk ((i + j) * fw) 0 (min fw (stripW - (i + j) * fw))
          (min fh stripH) (i + j) ((i + j) * fw) 0 fw fh := by
  intro n
  induction n with
  | zero => intro i j h; simp [sliceFramesLoop] at h
  | succ n ih =>
    intro i j h
    by_cases hbr : i * fw + fw > stripW
    · rw [sliceFramesLoop, if_pos hbr] at h
      simp at h
    · rw [sliceFramesLoop, if_neg hbr] at h ⊢
      cases j with
      | zero => simp
      | succ j =>
        rw [List.getD_cons_succ]
        rw [List.length_cons] at h
        have hij : i + (j + 1) = (i + 1) + j := by omega
        rw [hij]
        exact ih (i + 1) j (by omega)

/-- C4 counterexample: a 64×32 strip sliced with frameWidth = 64,
frameHeight = 64, frameCount = 1.  Frame 0's nominal rectangle
(0, 0, 64, 64) exceeds the strip's actual bounds (height 64 > 32), yet
extraction does not stop: one frame is returned (not a shorter
sequence), with the extracted buffer silently cropped to height 32 while
the recorded frame height stays 64.  Exceeding the height is therefore
not an early-termination condition — only exceeding the width is. -/
theorem c4_vertical_overflow_cex :
    (sliceStrip 64 32 64 64 1).1.length = 1 ∧
    ((sliceStrip 64 32 64 64 1).1.getD 0 emptySlice).height = 64 ∧
    ((sliceStrip 64 32 64 64 1).1.getD 0 emptySlice).bufHeight = 32 ∧
    ¬ (64 ≤ 32) := by
  decide

/-- C4 amended: sliceStrip extracts frames in index order, the j-th
returned frame having index j, source position x = j·frameWidth, y = 0;
dimension mismatches only produce warnings and never abort (warnings and
frames are computed independently); extraction stops exactly when a
frame's rectangle would exceed the strip's actual WIDTH (giving
min(frameCount, ⌊stripWidth/frameWidth⌋) frames when frameWidth > 0),
and this width overflow is the only early-termination condition — a
rectangle exceeding the strip's height is cropped to the actual height
(bufHeight = min frameHeight stripHeight) and extraction continues. -/
theorem sliceStrip_behavior (stripW stripH fw fh n : Nat) :
    ((sliceStrip stripW stripH fw fh n).1.length =
      if fw = 0 then n else min n (stripW / fw)) ∧
    (∀ j, j < (sliceStrip stripW stripH fw fh n).1.length →
      ((sliceStrip stripW stripH fw fh n).1.getD j emptySlice).index = j ∧
      ((sliceStrip stripW stripH fw fh n).1.getD j emptySlice).x = j * fw ∧
      ((sliceStrip stripW stripH fw fh n).1.getD j emptySlice).y = 0 ∧
      ((sliceStrip stripW stripH fw fh n).1.getD j emptySlice).bufHeight =
        min fh stripH ∧
      ((sliceStrip stripW stripH fw fh n).1.getD j emptySlice).width = fw ∧
      ((sliceStrip stripW stripH fw fh n).1.getD j emptySlice).height = fh) ∧
    ((sliceStrip stripW stripH fw fh n).2 =
      (if stripW = fw * n then []
        else [SliceWarning.widthMismatch (fw * n) stripW]) ++
      (if stripH = fh then [] else [SliceWarning.heightMismatch fh stripH])) := by
  refine ⟨?_, ?_, rfl⟩
  · by_cases hfw : fw = 0
    · subst hfw
      rw [if_pos rfl]
      exact sliceFramesLoop_length_fw_zero stripW stripH fh n 0
    · rw [if_neg hfw]
      have h := sliceFramesLoop_length stripW stripH fw fh (by omega) n 0
      simpa using h
  · intro j hj
    have h := sliceFramesLoop_getD stripW stripH fw fh n 0 j hj
    simp only [Nat.zero_add] at h
    unfold sliceStrip
    rw [h]
    exact ⟨rfl, rfl, rfl, rfl, rfl, rfl⟩

/-- Witness for the amended C4 at the 256×64 four-frame scenario. -/
theorem sliceStrip_behavior_witness :
    ((sliceStrip 256 64 64 64 4).1.getD 1 emptySlice).index = 1 ∧
    ((sliceStrip 256 64 64 64 4).1.getD 1 emptySlice).x = 1 * 64 ∧
    ((sliceStrip 256 64 64 64 4).1.getD 1 emptySlice).y = 0 ∧
    ((sliceStrip 256 64 64 64 4).1.getD 1 emptySlice).bufHeight = min 64 64 ∧
    ((sliceStrip 256 64 64 64 4).1.getD 1 emptySlice).width = 64 ∧
    ((sliceStrip 256 64 64 64 4).1.getD 1 emptySlice).height = 64 :=
  (sliceStrip_behavior 256 64 64 64 4).2.1 1 (by decide)

/-! Background removal (src/validator/png-validator.js lines 250-288,
claim C9).  The raw RGBA buffer is a flat byte list processed in strides
of four. -/

/-- A background colour (default in the source: white 255/255/255). -/
structure RGB where
  r : Nat
  g : Nat
  b : Nat
deriving Repr, DecidableEq

/-- The per-pixel test: all three channel distances to the background
colour are within the tolerance (default 10). -/
def matchesBackground (r g b : Nat) (bg : RGB) (tol : Nat) : Bool :=
  decide (((r : Int) - bg.r).natAbs ≤ tol) &&
  decide (((g : Int) - bg.g).natAbs ≤ tol) &&
  decide (((b : Int) - bg.b).natAbs ≤ tol)

/-- removeBackground's single linear pass over the flat RGBA buffer:
a matching pixel gets its alpha byte zeroed, everything else is copied;
a trailing chunk of fewer than four bytes is left as is (the source
reads undefined there and the comparison fails). -/
def removeBackground (bg : RGB) (tol : Nat) : List Nat → List Nat
  | r :: g :: b :: a :: rest =>
    if matchesBackground r g b bg tol then
      r :: g :: b :: 0 :: removeBackground bg tol rest
    else
      r :: g :: b :: a :: removeBackground bg tol rest
  | l => l

/-- Whether the pixel whose bytes start at offset k matches the
background. -/
def matchesAt (data : List Nat) (k : Nat) (bg : RGB) (tol : Nat) : Bool :=
  matchesBackground (data.getD k 0) (data.getD (k + 1) 0) (data.getD (k + 2) 0) bg tol

theorem removeBackground_length (bg : RGB) (tol : Nat) :
    ∀ data : List Nat, (removeBackground bg tol data).length = data.length := by
  intro data
  induction data using removeBackground.induct bg tol with
  | case1 r g b a rest hm ih =>
    rw [removeBackground, if_pos hm]
    simpa using ih
  | case2 r g b a rest hm ih =>
    rw [removeBackground, if_neg hm]
    simpa using ih
  | case3 l hl =>
    rcases l with _ | ⟨r, _ | ⟨g, _ | ⟨b, _ | ⟨a, rest⟩⟩⟩⟩
    · rfl
    · rfl
    · rfl
    · rfl
    · exact absurd rfl (hl r g b a rest)

theorem getD_shift4 (x1 x2 x3 x4 : Nat) (l : List Nat) (k : Nat) :
    (x1 :: x2 :: x3 :: x4 :: l).getD (k + 4) 0 = l.getD k 0 := rfl

theorem matchesAt_shift4 (x1 x2 x3 x4 : Nat) (l : List Nat) (k : Nat)
    (bg : RGB) (tol : Nat) :
    matchesAt (x1 :: x2 :: x3 :: x4 :: l) (k + 4) bg tol = matchesAt l k bg tol := rfl

theorem removeBackground_pixel_bytes (bg : RGB) (tol : Nat) :
    ∀ data : List Nat, ∀ j, 4 * j + 3 < data.length →
      (removeBackground bg tol data).getD (4 * j) 0 = data.getD (4 * j) 0 ∧
      (removeBackground bg tol data).getD (4 * j + 1) 0 = data.getD (4 * j + 1) 0 ∧
      (removeBackground bg tol data).getD (4 * j + 2) 0 = data.getD (4 * j + 2) 0 ∧
      (removeBackground bg tol data).getD (4 * j + 3) 0 =
        (if matchesAt data (4 * j) bg tol then 0 else data.getD (4 * j + 3) 0) := by
  intro data
  induction data using removeBackground.induct bg tol with
  | case1 r g b a rest hm ih =>
    intro j hj
    rw [removeBackground, if_pos hm]
    cases j with
    | zero =>
      refine ⟨rfl, rfl, rfl, ?_⟩
      rw [show matchesAt (r :: g :: b :: a :: rest) 0 bg tol =
        matchesBackground r g b bg tol from rfl, hm]
      rfl
    | succ j =>
      have hlen : 4 * j + 3 < rest.length := by
        simp only [List.length_cons] at hj
        omega
      obtain ⟨h1, h2, h3, h4⟩ := ih j hlen
      have e0 : 4 * (j + 1) = 4 * j + 4 := by ring
      rw [e0]
      have e1 : 4 * j + 4 + 1 = (4 * j + 1) + 4 := by ring
      have e2 : 4 * j + 4 + 2 = (4 * j + 2) + 4 := by ring
      have e3 : 4 * j + 4 + 3 = (4 * j + 3) + 4 := by ring
      rw [e1, e2, e3]
      simp only [getD_shift4, matchesAt_shift4]
      exact ⟨h1, h2, h3, h4⟩
  | case2 r g b a rest hm ih =>
    intro j hj
    rw [removeBackground, if_neg hm]
    cases j with
    | zero =>
      refine ⟨rfl, rfl, rfl, ?_⟩
      rw [show matchesAt (r :: g :: b :: a :: rest) 0 bg tol =
        matchesBackground r g b bg tol from rfl]
      rw [if_neg hm]
      rfl
    | succ j =>
      have hlen : 4 * j + 3 < rest.length := by
        simp only [List.length_cons] at hj
        omega
      obtain ⟨h1, h2, h3, h4⟩ := ih j hlen
      have e0 : 4 * (j + 1) = 4 * j + 4 := by ring
      rw [e0]
      have e1 : 4 * j + 4 + 1 = (4 * j + 1) + 4 := by ring
      have e2 : 4 * j + 4 + 2 = (4 * j + 2) + 4 := by ring
      have e3 : 4 * j + 4 + 3 = (4 * j + 3) + 4 := by ring
      rw [e1, e2, e3]
      simp only [getD_shift4, matchesAt_shift4]
      exact ⟨h1, h2, h3, h4⟩
  | case3 l hl =>
    intro j hj
    rcases l with _ | ⟨r, _ | ⟨g, _ | ⟨b, _ | ⟨a, rest⟩⟩⟩⟩
    · simp only [List.length_nil] at hj
      omega
    · simp only [List.length_cons, List.length_nil] at hj
      omega
    · simp only [List.length_cons, List.length_nil] at hj
      omega
    · simp only [List.length_cons, List.length_nil] at hj
      omega
    · exact absurd rfl (hl r g b a rest)

theorem removeBackground_trailing (bg : RGB) (tol : Nat) :
    ∀ data : List Nat, ∀ i, 4 * (data.length / 4) ≤ i →
      (removeBackground bg tol data).getD i 0 = data.getD i 0 := by
  intro data
  induction data using removeBackground.induct bg tol with
  | case1 r g b a rest hm ih =>
    intro i hi
    have hdiv : (r :: g :: b :: a :: rest).length / 4 = rest.length / 4 + 1 := by
      simp only [List.length_cons]
      omega
    rw [hdiv] at hi
    obtain ⟨k, rfl⟩ : ∃ k, i = k + 4 := ⟨i - 4, by omega⟩
    rw [removeBackground, if_pos hm, getD_shift4, getD_shift4]
    exact ih k (by omega)
  | case2 r g b a rest hm ih =>
    intro i hi
    have hdiv : (r :: g :: b :: a :: rest).length / 4 = rest.length / 4 + 1 := by
      simp only [List.length_cons]
      omega
    rw [hdiv] at hi
    obtain ⟨k, rfl⟩ : ∃ k, i = k + 4 := ⟨i - 4, by omega⟩
    rw [removeBackground, if_neg hm, getD_shift4, getD_shift4]
    exact ih k (by omega)
  | case3 l hl =>
    intro i hi
    rcases l with _ | ⟨r, _ | ⟨g, _ | ⟨b, _ | ⟨a, rest⟩⟩⟩⟩
    · rfl
    · rfl
    · rfl
    · rfl
    · exact absurd rfl (hl r g b a rest)

/-- The source's default background colour (white). -/
def whiteBg : RGB := RGB.mk 255 255 255

/-- Two concrete RGBA pixels: the first within tolerance 10 of white,
the second not. -/
def demoBytes : List Nat := [250, 252, 255, 200, 10, 20, 30, 40]

/-- C9: removeBackground's single linear pass preserves the buffer
length; for every aligned pixel the R, G and B bytes are copied
unchanged, and the alpha byte is set to 0 exactly when all three
per-channel absolute distances to the target colour are within the
tolerance (otherwise it too is copied unchanged); any trailing bytes
after the last complete pixel are untouched.  In particular
non-matching pixels are byte-for-byte unchanged and matching pixels
change only their alpha byte. -/
theorem removeBackground_spec (bg : RGB) (tol : Nat) (data : List Nat) :
    (removeBackground bg tol data).length = data.length ∧
    (∀ j, 4 * j + 3 < data.length →
      (removeBackground bg tol data).getD (4 * j) 0 = data.getD (4 * j) 0 ∧
      (removeBackground bg tol data).getD (4 * j + 1) 0 = data.getD (4 * j + 1) 0 ∧
      (removeBackground bg tol data).getD (4 * j + 2) 0 = data.getD (4 * j + 2) 0 ∧
      (removeBackground bg tol data).getD (4 * j + 3) 0 =
        (if matchesAt data (4 * j) bg tol then 0 else data.getD (4 * j + 3) 0)) ∧
    (∀ i, 4 * (data.length / 4) ≤ i →
      (removeBackground bg tol data).getD i 0 = data.getD i 0) :=
  ⟨removeBackground_length bg tol data,
   removeBackground_pixel_bytes bg tol data,
   removeBackground_trailing bg tol data⟩

/-- Witness for C9 at a concrete two-pixel buffer. -/
theorem removeBackground_spec_witness :
    (removeBackground whiteBg 10 demoBytes).getD 3 0 =
      (if matchesAt demoBytes 0 whiteBg 10 then 0 else demoBytes.getD 3 0) :=
  ((removeBackground_spec whiteBg 10 demoBytes).2.1 0 (by decide)).2.2.2

/-! PNG validator (src/validator/png-validator.js, claims C5 and C6).
A successfully decoded image is characterized by its metadata and an
alpha-channel accessor (the code's getAlpha over the raw RGBA buffer);
an unparseable buffer is the `none` case.  The floating-point
percentage is modelled exactly in ℚ (division by a zero total yields 0
in ℚ and NaN in JavaScript; both fail the ≥ comparison). -/

/-- config.validation.cornerSampleSize (src/config.js). -/
def cornerSampleSize : Nat := 5

/-- config.validation.alphaThreshold. -/
def alphaThreshold : Nat := 10

/-- config.validation.minTransparentBorderPercent. -/
def minTransparentBorderPercent : ℚ := 95

/-- A decoded image: sharp metadata plus the alpha accessor
getAlpha(x, y) = data[(y*width + x)*4 + 3]. -/
structure DecodedImage where
  format : String
  channels : Nat
  hasAlpha : Bool
  width : Nat
  height : Nat
  byteSize : Nat
  alpha : Nat → Nat → Nat

/-- The corner samples: from each corner coordinate (0 or W-1 / 0 or
H-1) the loops walk dx, dy ∈ [0, cornerSampleSize) rightward/downward,
stopping at the image boundary — so every corner except the top-left
one yields a clipped block. -/
def cornerSamplePoints (W H : Nat) : List (Nat × Nat) :=
  [(0, 0), (W - 1, 0), (0, H - 1), (W - 1, H - 1)].flatMap (fun c =>
    ((List.range cornerSampleSize).filter (fun dx => c.1 + dx < W)).flatMap (fun dx =>
      ((List.range cornerSampleSize).filter (fun dy => c.2 + dy < H)).map (fun dy =>
        (c.1 + dx, c.2 + dy))))

/-- sampleInterval = max(1, floor(width / 20)); the width-derived
interval is used for all four edges. -/
def sampleInterval (W : Nat) : Nat := max 1 (W / 20)

/-- The number of loop iterations of `for (v = 0; v < bound; v += k)`
for k ≥ 1. -/
def stepCount (bound k : Nat) : Nat := (bound + k - 1) / k

/-- The edge samples: every sampleInterval-th pixel of the top and
bottom edges, then of the left and right edges. -/
def edgeSamplePoints (W H : Nat) : List (Nat × Nat) :=
  ((List.range (stepCount W (sampleInterval W))).map (· * sampleInterval W)).flatMap
    (fun x => [(x, 0), (x, H - 1)]) ++
  ((List.range (stepCount H (sampleInterval W))).map (· * sampleInterval W)).flatMap
    (fun y => [(0, y), (W - 1, y)])

/-- All border samples, with multiplicity, in the order the code visits
them. -/
def borderSamplePoints (W H : Nat) : List (Nat × Nat) :=
  cornerSamplePoints W H ++ edgeSamplePoints W H

/-- Errors and detail lines validatePng can report, one constructor per
distinct message. -/
inductive VError where
  | invalidFormat (got : String)
  | invalidChannels (got : Nat)
  | missingAlpha
  | invalidWidth (expected got : Nat)
  | invalidHeight (expected got : Nat)
  | backgroundNotTransparent
  | transparencyDetail (percent : ℚ)
  | parseFailure
deriving Repr, DecidableEq

/-- Result of validateTransparency. -/
structure TransparencyResult where
  isTransparent : Bool
  transparentPercent : ℚ
  totalBorderPixels : Nat
  transparentPixels : Nat
  details : List VError

/-- validateTransparency (png-validator.js lines 95-179): count sampled
pixels whose alpha is at most alphaThreshold, compute the percentage,
compare against minTransparentBorderPercent, and on failure produce the
detail line citing the measured percentage. -/
def validateTransparency (img : DecodedImage) : TransparencyResult :=
  let pts := borderSamplePoints img.width img.height
  let total := pts.length
  let tp := pts.countP (fun pt => img.alpha pt.1 pt.2 ≤ alphaThreshold)
  let percent : ℚ := (tp : ℚ) / (total : ℚ) * 100
  let isT : Bool := minTransparentBorderPercent ≤ percent
  { isTransparent := isT
    transparentPercent := percent
    totalBorderPixels := total
    transparentPixels := tp
    details := if isT then [] else [VError.transparencyDetail percent] }

/-- Expected dimensions passed to validatePng (absent fields — and the
falsy value 0 — skip the corresponding check). -/
structure ExpectedSpec where
  width : Option Nat
  height : Option Nat
deriving Repr, DecidableEq

/-- Metadata echoed in the report when the buffer parsed. -/
structure ReportMeta where
  width : Nat
  height : Nat
  channels : Nat
  format : String
  hasAlpha : Bool
  size : Nat
deriving Repr, DecidableEq

/-- The validation report. -/
structure ValidationResult where
  isValid : Bool
  errors : List VError
  warnings : List VError
  metadata : Option ReportMeta

/-- validatePng (png-validator.js lines 27-87): all checks are evaluated
independently and collected; the transparency check runs only when the
image has an alpha channel and on failure contributes both the summary
error and the detail lines; an unparseable buffer contributes the
parse-failure error; isValid is defined as emptiness of the collected
errors.  The function is total: it never throws. -/
def validatePng (input : Option DecodedImage) (espec : ExpectedSpec) :
    ValidationResult :=
  match input with
  | none =>
    { isValid := ([VError.parseFailure] : List VError).isEmpty
      errors := [VError.parseFailure]
      warnings := []
      metadata := none }
  | some img =>
    let errors :=
      (if img.format = "png" then [] else [VError.invalidFormat img.format]) ++
      (if img.channels = 4 then [] else [VError.invalidChannels img.channels]) ++
      (if img.hasAlpha then [] else [VError.missingAlpha]) ++
      (match espec.width with
        | some w => if ¬ w = 0 ∧ ¬ img.width = w then [VError.invalidWidth w img.width] else []
        | none => []) ++
      (match espec.height with
        | some hh => if ¬ hh = 0 ∧ ¬ img.height = hh then [VError.invalidHeight hh img.height] else []
        | none => []) ++
      (if img.hasAlpha then
        (if (validateTransparency img).isTransparent then []
          else VError.backgroundNotTransparent :: (validateTransparency img).details)
        else [])
    { isValid := errors.isEmpty
      errors := errors
      warnings := []
      metadata := some (ReportMeta.mk img.width img.height img.channels img.format
        img.hasAlpha img.byteSize) }

theorem validateTransparency_transparentPixels (img : DecodedImage) :
    (validateTransparency img).transparentPixels =
      (borderSamplePoints img.width img.height).countP
        (fun pt => img.alpha pt.1 pt.2 ≤ alphaThreshold) := rfl

theorem validateTransparency_total (img : DecodedImage) :
    (validateTransparency img).totalBorderPixels =
      (borderSamplePoints img.width img.height).length := rfl

theorem validateTransparency_percent (img : DecodedImage) :
    (validateTransparency img).transparentPercent =
      ((validateTransparency img).transparentPixels : ℚ) /
        ((validateTransparency img).totalBorderPixels : ℚ) * 100 := rfl

theorem validateTransparency_details (img : DecodedImage) :
    (validateTransparency img).details =
      (if (validateTransparency img).isTransparent then []
        else [VError.transparencyDetail (validateTransparency img).transparentPercent]) :=
  rfl

/-- The C5 scenario image: 64×64, fully transparent except an opaque
5×5 top-left corner block. -/
def blockedCornerImage : DecodedImage :=
  { format := "png", channels := 4, hasAlpha := true, width := 64, height := 64,
    byteSize := 16384, alpha := fun x y => if x < 5 ∧ y < 5 then 255 else 0 }

/-- The C5 counterexample image: 64×64, fully transparent except the 16
pixels 59 ≤ x ≤ 62, 1 ≤ y ≤ 4 — inside the top-right
cornerSampleSize-sided corner block but away from every pixel the code
actually samples. -/
def trBlockedImage : DecodedImage :=
  { format := "png", channels := 4, hasAlpha := true, width := 64, height := 64,
    byteSize := 16384,
    alpha := fun x y => if 59 ≤ x ∧ x ≤ 62 ∧ 1 ≤ y ∧ y ≤ 4 then 255 else 0 }

/-- Modelled from the spec: the claim's sample set has a
cornerSampleSize-sided block at each of the four corners, lying within
the image — this definition follows the spec's words for comparison with
the source's `cornerSamplePoints`. -/
def specCornerSamplePoints (W H : Nat) : List (Nat × Nat) :=
  (List.range cornerSampleSize).flatMap (fun dx =>
    (List.range cornerSampleSize).map (fun dy => (dx, dy))) ++
  (List.range cornerSampleSize).flatMap (fun dx =>
    (List.range cornerSampleSize).map (fun dy => (W - cornerSampleSize + dx, dy))) ++
  (List.range cornerSampleSize).flatMap (fun dx =>
    (List.range cornerSampleSize).map (fun dy => (dx, H - cornerSampleSize + dy))) ++
  (List.range cornerSampleSize).flatMap (fun dx =>
    (List.range cornerSampleSize).map (fun dy =>
      (W - cornerSampleSize + dx, H - cornerSampleSize + dy)))

/-- Modelled from the spec: the transparency percentage computed over
the four full corner blocks plus the edge samples, as the claim
describes it. -/
def specTransparentPercent (img : DecodedImage) : ℚ :=
  (((specCornerSamplePoints img.width img.height ++
      edgeSamplePoints img.width img.height).countP
    (fun pt => img.alpha pt.1 pt.2 ≤ alphaThreshold) : Nat) : ℚ) /
  (((specCornerSamplePoints img.width img.height ++
      edgeSamplePoints img.width img.height).length : Nat) : ℚ) * 100

/-- C5 counterexample: the code does not sample four
cornerSampleSize-sided corner blocks.  On a 64×64 image it samples only
36 corner pixels (the loops walk rightward/downward from each corner
coordinate and clip at the boundary), not the 100 the claim's four
5×5 blocks contain; and on the concrete image opaque only inside the
top-right 5×5 corner block the code's check passes while the
percentage computed over the claim's sample set is below 95, so the
claim's described computation fails the image the code accepts. -/
theorem c5_corner_block_cex :
    (cornerSamplePoints 64 64).length = 36 ∧
    (specCornerSamplePoints 64 64).length = 100 ∧
    ¬ (36 : Nat) = 100 ∧
    (validateTransparency trBlockedImage).isTransparent = true ∧
    specTransparentPercent trBlockedImage < 95 := by
  refine ⟨by decide, by decide, by decide, ?_, ?_⟩
  · have htp : (validateTransparency trBlockedImage).transparentPixels = 124 := by
      decide
    have htot : (validateTransparency trBlockedImage).totalBorderPixels = 124 := by
      decide
    have hpct : (validateTransparency trBlockedImage).transparentPercent = 100 := by
      rw [validateTransparency_percent, htp, htot]
      norm_num
    exact decide_eq_true (show minTransparentBorderPercent ≤
      (validateTransparency trBlockedImage).transparentPercent by
        rw [hpct]
        norm_num [minTransparentBorderPercent])
  · have h1 : (specCornerSamplePoints trBlockedImage.width
        trBlockedImage.height ++ edgeSamplePoints trBlockedImage.width
        trBlockedImage.height).countP
        (fun pt => trBlockedImage.alpha pt.1 pt.2 ≤ alphaThreshold) = 172 := by
      decide
    have h2 : (specCornerSamplePoints trBlockedImage.width
        trBlockedImage.height ++ edgeSamplePoints trBlockedImage.width
        trBlockedImage.height).length = 188 := by
      decide
    unfold specTransparentPercent
    rw [h1, h2]
    norm_num

/-- C5 amended: a sampled pixel counts as transparent iff its alpha is
at most alphaThreshold (default 10); transparentPercent is
transparentSamples / totalSamples · 100 over the code's sample set —
corner blocks walked rightward/downward from each corner coordinate and
clipped at the image boundary (only the top-left block is a full
cornerSampleSize×cornerSampleSize square), plus every
max(1, ⌊width/20⌋)-th pixel along each edge; the check passes iff
transparentPercent ≥ minTransparentBorderPercent (default 95); on
failure both the summary error and a detail line citing the measured
percentage are reported; the otherwise-valid 64×64 image with a fully
opaque 5×5 top-left corner block fails with measured percentage
9500/124 ≈ 76.6 < 95 and its report carries exactly the summary error
and that detail line. -/
theorem border_transparency_check :
    (∀ img : DecodedImage,
      ((validateTransparency img).isTransparent = true ↔
        minTransparentBorderPercent ≤ (validateTransparency img).transparentPercent)) ∧
    (∀ img : DecodedImage,
      (validateTransparency img).transparentPixels =
        (borderSamplePoints img.width img.height).countP
          (fun pt => img.alpha pt.1 pt.2 ≤ alphaThreshold) ∧
      (validateTransparency img).totalBorderPixels =
        (borderSamplePoints img.width img.height).length ∧
      (validateTransparency img).transparentPercent =
        ((validateTransparency img).transparentPixels : ℚ) /
          ((validateTransparency img).totalBorderPixels : ℚ) * 100 ∧
      (validateTransparency img).details =
        (if (validateTransparency img).isTransparent then []
          else [VError.transparencyDetail (validateTransparency img).transparentPercent])) ∧
    ((validateTransparency blockedCornerImage).isTransparent = false ∧
      (validateTransparency blockedCornerImage).transparentPercent = 9500 / 124 ∧
      (9500 : ℚ) / 124 < 95 ∧
      (validatePng (some blockedCornerImage)
          (ExpectedSpec.mk (some 64) (some 64))).errors =
        [VError.backgroundNotTransparent,
         VError.transparencyDetail (9500 / 124)]) := by
  have hiff : ∀ img : DecodedImage,
      ((validateTransparency img).isTransparent = true ↔
        minTransparentBorderPercent ≤ (validateTransparency img).transparentPercent) :=
    fun img => ⟨fun h => of_decide_eq_true h, fun h => decide_eq_true h⟩
  refine ⟨hiff, fun img => ⟨rfl, rfl, rfl, rfl⟩, ?_⟩
  have htp : (validateTransparency blockedCornerImage).transparentPixels = 95 := by
    decide
  have htot : (validateTransparency blockedCornerImage).totalBorderPixels = 124 := by
    decide
  have hpct : (validateTransparency blockedCornerImage).transparentPercent = 9500 / 124 := by
    rw [validateTransparency_percent, htp, htot]
    norm_num
  have hlt : (9500 : ℚ) / 124 < 95 := by norm_num
  have hfalse : (validateTransparency blockedCornerImage).isTransparent = false := by
    apply decide_eq_false
    show ¬ minTransparentBorderPercent ≤
      (validateTransparency blockedCornerImage).transparentPercent
    rw [hpct]
    norm_num [minTransparentBorderPercent]
  refine ⟨hfalse, hpct, hlt, ?_⟩
  have herr : (validatePng (some blockedCornerImage)
      (ExpectedSpec.mk (some 64) (some 64))).errors =
      (if (validateTransparency blockedCornerImage).isTransparent then []
        else VError.backgroundNotTransparent ::
          (validateTransparency blockedCornerImage).details) := rfl
  rw [herr, hfalse]
  rw [if_neg (by simp)]
  rw [validateTransparency_details, hfalse]
  rw [if_neg (by simp), hpct]

theorem mem_ite_list {γ : Type} (x : γ) (c : Prop) [Decidable c]
    (l1 l2 : List γ) :
    x ∈ (if c then l1 else l2) ↔ (c ∧ x ∈ l1) ∨ (¬ c ∧ x ∈ l2) := by
  by_cases h : c <;> simp [h]

/-- C6: validatePng is total (modelled as a function that always returns
a report): an unparseable buffer yields exactly the parse-failure error;
isValid holds exactly when the error list is empty; and on a decoded
image every check contributes its error independently of the others —
each possible error is present iff its own condition is violated, with
the transparency summary and detail applicable only when the image has
an alpha channel. -/
theorem validatePng_report :
    (∀ (input : Option DecodedImage) (espec : ExpectedSpec),
      ((validatePng input espec).isValid = true ↔
        (validatePng input espec).errors = [])) ∧
    (∀ espec : ExpectedSpec,
      (validatePng none espec).errors = [VError.parseFailure]) ∧
    (∀ (img : DecodedImage) (espec : ExpectedSpec),
      (VError.invalidFormat img.format ∈ (validatePng (some img) espec).errors ↔
        ¬ img.format = "png") ∧
      (VError.invalidChannels img.channels ∈ (validatePng (some img) espec).errors ↔
        ¬ img.channels = 4) ∧
      (VError.missingAlpha ∈ (validatePng (some img) espec).errors ↔
        img.hasAlpha = false) ∧
      (∀ w, VError.invalidWidth w img.width ∈ (validatePng (some img) espec).errors ↔
        (espec.width = some w ∧ ¬ w = 0 ∧ ¬ img.width = w)) ∧
      (∀ hh, VError.invalidHeight hh img.height ∈ (validatePng (some img) espec).errors ↔
        (espec.height = some hh ∧ ¬ hh = 0 ∧ ¬ img.height = hh)) ∧
      (VError.backgroundNotTransparent ∈ (validatePng (some img) espec).errors ↔
        (img.hasAlpha = true ∧ (validateTransparency img).isTransparent = false)) ∧
      (∀ q, VError.transparencyDetail q ∈ (validatePng (some img) espec).errors ↔
        (img.hasAlpha = true ∧ (validateTransparency img).isTransparent = false ∧
          q = (validateTransparency img).transparentPercent))) := by
  refine ⟨?_, ?_, ?_⟩
  · intro input espec
    cases input <;> simp [validatePng, List.isEmpty_iff]
  · intro espec
    rfl
  · intro img espec
    obtain ⟨ew, eh⟩ := espec
    refine ⟨?_, ?_, ?_, ?_, ?_, ?_, ?_⟩
    · cases ew <;> cases eh <;>
        simp [validatePng, List.mem_append, mem_ite_list,
          validateTransparency_details]
    · cases ew <;> cases eh <;>
        simp [validatePng, List.mem_append, mem_ite_list,
          validateTransparency_details]
    · cases ew <;> cases eh <;>
        simp [validatePng, List.mem_append, mem_ite_list,
          validateTransparency_details]
    · intro w
      cases ew <;> cases eh <;>
        simp [validatePng, List.mem_append, mem_ite_list,
          validateTransparency_details] <;>
        by_cases hw : img.width = w <;>
        simp [hw] <;>
        omega
    · intro hh
      cases ew <;> cases eh <;>
        simp [validatePng, List.mem_append, mem_ite_list,
          validateTransparency_details] <;>
        by_cases hht : img.height = hh <;>
        simp [hht] <;>
        omega
    · cases ew <;> cases eh <;>
        simp [validatePng, List.mem_append, mem_ite_list,
          validateTransparency_details]
    · intro q
      cases ew <;> cases eh <;>
        simp [validatePng, List.mem_append, mem_ite_list,
          validateTransparency_details]

end Spraite
